import Mathlib

/-!
Verification development for the tuple-algebra and canvas components of the
ray-tracer-challenge repository.  Go float64 values are modelled as rationals;
the mutate-in-place operations of the source are modelled as pure functions
returning the resulting value, as section 9 of the design notes sanctions.
Go uint64 arithmetic is modelled on Nat with an explicit wrap modulo 2 ^ 64
where the source computes with uint64.  A Go runtime fault (slice index out of
bounds, method call on a nil interface value) is modelled by Option, with none
standing for the fault.
-/

set_option linter.dupNamespace false

namespace math

/-- Epsilon is the small number for testing float equality, from the math
package of the repository. -/
def Epsilon : ℚ := 1 / 100000

/-- Equals approximately tests equality of two numbers by checking whether
their absolute difference is within the threshold, from the math package. -/
def Equals (epsilon : ℚ) : ℚ → ℚ → Prop :=
  fun expected got => |expected - got| < epsilon

/-- Round models Go math.Round: round to the nearest integer, rounding half
away from zero. -/
def Round (x : ℚ) : ℤ :=
  if x < 0 then -⌊-x + 1/2⌋ else ⌊x + 1/2⌋

end math

namespace number

/-- Interval is a pair of interval bounds, from the number package of the
repository. -/
structure Interval where
  Min : ℚ
  Max : ℚ
deriving DecidableEq

/-- Clamp restricts a number to the interval, from the number package. -/
def Interval.Clamp (i : Interval) (n : ℚ) : ℚ :=
  if n < i.Min then i.Min
  else if n > i.Max then i.Max
  else n

/-- ChangeInterval linearly rescales a number from the old interval onto the
target interval, from the number package. -/
def ChangeInterval (n : ℚ) (old target : Interval) : ℚ :=
  target.Min + (((target.Max - target.Min) / (old.Max - old.Min)) * (n - old.Min))

end number

namespace tuple

/-- tuple is the shared three-component storage struct of the tuple package. -/
structure tuple where
  x : ℚ
  y : ℚ
  z : ℚ
deriving DecidableEq

/-- add is the componentwise sum on the shared storage; the source mutates the
receiver in place and returns it, modelled here as returning the sum. -/
def tuple.add (t o : tuple) : tuple :=
  ⟨t.x + o.x, t.y + o.y, t.z + o.z⟩

/-- sub is the componentwise difference on the shared storage. -/
def tuple.sub (t o : tuple) : tuple :=
  ⟨t.x - o.x, t.y - o.y, t.z - o.z⟩

/-- vector embeds the shared tuple storage, as the vector struct of the source
embeds the tuple struct. -/
structure vector where
  toTuple : tuple
deriving DecidableEq

/-- NewVector constructs a vector from three components. -/
def NewVector (x y z : ℚ) : vector :=
  ⟨⟨x, y, z⟩⟩

/-- X is the accessor promoted from the embedded tuple. -/
def vector.X (v : vector) : ℚ := v.toTuple.x

/-- Y is the accessor promoted from the embedded tuple. -/
def vector.Y (v : vector) : ℚ := v.toTuple.y

/-- Z is the accessor promoted from the embedded tuple. -/
def vector.Z (v : vector) : ℚ := v.toTuple.z

/-- W of a vector is always 0, whatever the stored components; the source
returns the literal 0.0 without reading the receiver. -/
def vector.W (_ : vector) : ℚ := 0

/-- AddVector adds componentwise; the source mutates the receiver through the
embedded tuple and reinterprets the result pointer as a vector. -/
def vector.AddVector (v o : vector) : vector :=
  ⟨v.toTuple.add o.toTuple⟩

/-- SubVector subtracts componentwise through the embedded tuple. -/
def vector.SubVector (v o : vector) : vector :=
  ⟨v.toTuple.sub o.toTuple⟩

/-- Cross is the right-handed cross product, allocating a fresh vector. -/
def vector.Cross (v o : vector) : vector :=
  NewVector (v.Y * o.Z - v.Z * o.Y) (v.Z * o.X - v.X * o.Z) (v.X * o.Y - v.Y * o.X)

/-- Scale multiplies every component by the scalar. -/
def vector.Scale (v : vector) (scalar : ℚ) : vector :=
  ⟨⟨v.X * scalar, v.Y * scalar, v.Z * scalar⟩⟩

/-- Div divides every component by the scalar.  The source performs float64
division; over the rationals division by zero yields 0, so the IEEE-754
infinity behaviour at scalar 0 is outside this embedding. -/
def vector.Div (v : vector) (scalar : ℚ) : vector :=
  ⟨⟨v.X / scalar, v.Y / scalar, v.Z / scalar⟩⟩

/-- Dot is the scalar dot product. -/
def vector.Dot (v o : vector) : ℚ :=
  v.X * o.X + v.Y * o.Y + v.Z * o.Z

/-- point stores three components directly, as the point struct of the source
does; its memory layout matches the vector struct. -/
structure point where
  x : ℚ
  y : ℚ
  z : ℚ
deriving DecidableEq

/-- NewPoint constructs a point from three components. -/
def NewPoint (x y z : ℚ) : point :=
  ⟨x, y, z⟩

/-- X reads the first component. -/
def point.X (p : point) : ℚ := p.x

/-- Y reads the second component. -/
def point.Y (p : point) : ℚ := p.y

/-- Z reads the third component. -/
def point.Z (p : point) : ℚ := p.z

/-- W of a point is always 1, whatever the stored components; the source
returns the literal 1.0 without reading the receiver. -/
def point.W (_ : point) : ℚ := 1

/-- SubPoint subtracts componentwise and reinterprets the storage as a vector,
as the unsafe pointer cast in the source does. -/
def point.SubPoint (p o : point) : vector :=
  ⟨⟨p.x - o.x, p.y - o.y, p.z - o.z⟩⟩

/-- SubVector subtracts a vector componentwise, returning the mutated point. -/
def point.SubVector (p : point) (o : vector) : point :=
  ⟨p.x - o.X, p.y - o.Y, p.z - o.Z⟩

/-- MinColor is the least serialized channel value. -/
def MinColor : ℚ := 0

/-- MaxColor is the greatest serialized channel value. -/
def MaxColor : ℚ := 255

/-- limit is the clamping interval for color channels before serialization. -/
def limit : number.Interval := ⟨0, 1⟩

/-- output is the serialized channel interval. -/
def output : number.Interval := ⟨MinColor, MaxColor⟩

/-- color embeds the shared tuple storage; red, green and blue alias x, y, z. -/
structure color where
  toTuple : tuple
deriving DecidableEq

/-- NewColor constructs a color from three channels. -/
def NewColor (red green blue : ℚ) : color :=
  ⟨⟨red, green, blue⟩⟩

/-- White is the convenience constructor for the white color. -/
def White : color := NewColor 1 1 1

/-- Black is the convenience constructor for the black color. -/
def Black : color := NewColor 0 0 0

/-- X reads the first stored component. -/
def color.X (c : color) : ℚ := c.toTuple.x

/-- Y reads the second stored component. -/
def color.Y (c : color) : ℚ := c.toTuple.y

/-- Z reads the third stored component. -/
def color.Z (c : color) : ℚ := c.toTuple.z

/-- Red aliases the x component. -/
def color.Red (c : color) : ℚ := c.X

/-- Green aliases the y component. -/
def color.Green (c : color) : ℚ := c.Y

/-- Blue aliases the z component. -/
def color.Blue (c : color) : ℚ := c.Z

/-- W of a color is defined as 0 for interface uniformity. -/
def color.W (_ : color) : ℚ := 0

/-- AddColor adds componentwise through the embedded tuple. -/
def color.AddColor (c o : color) : color :=
  ⟨c.toTuple.add o.toTuple⟩

/-- SubColor subtracts componentwise through the embedded tuple. -/
def color.SubColor (c o : color) : color :=
  ⟨c.toTuple.sub o.toTuple⟩

/-- MulColor is the componentwise Hadamard product. -/
def color.MulColor (c o : color) : color :=
  ⟨⟨c.X * o.X, c.Y * o.Y, c.Z * o.Z⟩⟩

/-- Scale multiplies every channel by the scalar. -/
def color.Scale (c : color) (scalar : ℚ) : color :=
  ⟨⟨c.X * scalar, c.Y * scalar, c.Z * scalar⟩⟩

/-- ppmChannel is the per-channel integer computed inside color.ToPPM: clamp
to the limit interval, rescale onto the output interval, round.  The int64
conversion of the source is exact because the rounded value is integral. -/
def ppmChannel (ch : ℚ) : ℤ :=
  math.Round (number.ChangeInterval (limit.Clamp ch) limit output)

/-- ToPPM writes the three serialized channels space-separated, as the
Sprintf format string of the source does; the returned string is the text the
source writes to its writer. -/
def color.ToPPM (c : color) : String :=
  toString (ppmChannel c.Red) ++ " " ++
  toString (ppmChannel c.Green) ++ " " ++
  toString (ppmChannel c.Blue)

end tuple

namespace canvas

/-- U64 is the modulus of Go uint64 arithmetic. -/
def U64 : Nat := 2 ^ 64

/-- Drawable models the Go interface properties.Drawable.  The drawable
implementation the repository stores in canvases is the tuple color; nil is
the zero value an interface slot holds right after make, before the default
fill option repaints it.  The canvas type itself also implements the
interface, but no claim nests a canvas inside a canvas, so that case is not
modelled. -/
inductive Drawable where
  | nil
  | color (c : tuple.color)
deriving DecidableEq

/-- ToPPM of a drawable cell returns the text it writes; none models the Go
fault of invoking a method on a nil interface value. -/
def Drawable.ToPPM : Drawable → Option String
  | .nil => none
  | .color c => some c.ToPPM

/-- CanvasData is the observable state of a Canvas interface value handed to a
header function: its width, height and contents.  The Go HeaderFunc receives
the canvas itself; a Lean structure cannot hold a function over its own type,
so the header field below receives this record of the canvas observations
instead. -/
structure CanvasData where
  width : Nat
  height : Nat
  contents : List Drawable

/-- canvas is the concrete canvas struct: dimensions, header function,
separator and the dense cell slice. -/
structure canvas where
  width : Nat
  height : Nat
  header : CanvasData → String
  separator : String
  contents : List Drawable

/-- toData projects the observations a header function may make. -/
def canvas.toData (c : canvas) : CanvasData :=
  ⟨c.width, c.height, c.contents⟩

/-- FillFunc maps a cell coordinate to its initial drawable value. -/
abbrev FillFunc := Nat → Nat → Drawable

/-- HeaderFunc produces the header text from the canvas observations. -/
abbrev HeaderFunc := CanvasData → String

/-- Opt models the Go type canvas.Option, a mutation of the canvas under
construction. -/
abbrev Opt := canvas → canvas

/-- WithFillFunc stores, for every index i of the current contents, the fill
function applied to (i mod width, i div width).  When the contents are empty
the loop body never runs, which is what keeps width 0 safe in the source:
Go would fault on i mod 0, but no i exists. -/
def WithFillFunc (f : FillFunc) : Opt := fun c =>
  { c with contents := (List.range c.contents.length).map fun i => f (i % c.width) (i / c.width) }

/-- WithHeader installs the header function. -/
def WithHeader (f : HeaderFunc) : Opt := fun c =>
  { c with header := f }

/-- WithSeparator installs the separator string. -/
def WithSeparator (s : String) : Opt := fun c =>
  { c with separator := s }

/-- defaultOptions paint every cell black, install the P3 header (whose last
line is the maximum channel value converted to int64, exactly 255) and a
newline separator. -/
def defaultOptions : List Opt :=
  [WithFillFunc fun _ _ => Drawable.color tuple.Black,
   WithHeader fun c =>
     "P3\n" ++ toString c.width ++ " " ++ toString c.height ++ "\n" ++
       toString ⌊tuple.MaxColor⌋ ++ "\n",
   WithSeparator "\n"]

/-- New allocates height * width cells (uint64 product, hence the wrap) and
folds the default options and then the caller options over the fresh canvas.
The Go zero values of the header and separator fields (a nil function and the
empty string) are modelled by a constant function and the empty string; both
are overwritten by the default options before any use. -/
def New (width height : Nat) (opts : List Opt) : canvas :=
  let c : canvas :=
    { width := width
      height := height
      header := fun _ => ""
      separator := ""
      contents := List.replicate (height * width % U64) Drawable.nil }
  (defaultOptions ++ opts).foldl (fun c o => o c) c

/-- index computes the flat index x + y * width in uint64 arithmetic. -/
def canvas.index (c : canvas) (x y : Nat) : Nat :=
  (x + y * c.width) % U64

/-- Get reads the cell at the flat index; none models the Go index out of
range fault when the flat index reaches the length of the contents. -/
def canvas.Get (c : canvas) (x y : Nat) : Option Drawable :=
  c.contents[c.index x y]?

/-- Set writes the cell at the flat index and returns the canvas, for
chaining; none models the Go index out of range fault. -/
def canvas.Set (c : canvas) (x y : Nat) (item : Drawable) : Option canvas :=
  if c.index x y < c.contents.length then
    some { c with contents := c.contents.set (c.index x y) item }
  else none

/-- ToPPM writes the header text, then for every cell in contents order the
text of that cell followed by the separator; none models the fault of a nil
cell serializing itself. -/
def canvas.ToPPM (c : canvas) : Option String :=
  c.contents.foldl
    (fun acc item =>
      match acc, item.ToPPM with
      | some s, some t => some (s ++ t ++ c.separator)
      | _, _ => none)
    (some (c.header c.toData))

/-- fillCoords lists the coordinate pairs WithFillFunc passes to a fill
function run on this canvas, in invocation order; it is read off the loop in
WithFillFunc for stating invocation claims. -/
def canvas.fillCoords (c : canvas) : List (Nat × Nat) :=
  (List.range c.contents.length).map fun i => (i % c.width, i / c.width)

end canvas

/-- C2: for all components, a constructed vector has W 0 and a constructed
point has W 1, and every modelled operation of the tuple algebra preserves
these homogeneous coordinates: vector-producing operations yield W 0 and
point-producing operations yield W 1, whatever the stored components. -/
theorem tuple_W_invariant (x y z s : ℚ) (a b v : tuple.vector) (p q : tuple.point) :
    (tuple.NewVector x y z).W = 0 ∧ (tuple.NewPoint x y z).W = 1
    ∧ (a.AddVector b).W = 0 ∧ (a.SubVector b).W = 0 ∧ (a.Cross b).W = 0
    ∧ (a.Scale s).W = 0 ∧ (a.Div s).W = 0
    ∧ (p.SubPoint q).W = 0 ∧ (p.SubVector v).W = 1 :=
  ⟨rfl, rfl, rfl, rfl, rfl, rfl, rfl, rfl, rfl⟩

/-- C3: subtracting a point from a point gives the componentwise difference
as a vector (with W 0), and subtracting a vector from a point gives the
componentwise difference as a point (with W 1); each component agrees with
the specified value within Epsilon. -/
theorem point_sub_componentwise (a b : tuple.point) (v : tuple.vector) :
    (a.SubPoint b = tuple.NewVector (a.X - b.X) (a.Y - b.Y) (a.Z - b.Z)
      ∧ (a.SubPoint b).W = 0
      ∧ |(a.SubPoint b).X - (a.X - b.X)| < math.Epsilon
      ∧ |(a.SubPoint b).Y - (a.Y - b.Y)| < math.Epsilon
      ∧ |(a.SubPoint b).Z - (a.Z - b.Z)| < math.Epsilon)
    ∧ (a.SubVector v = tuple.NewPoint (a.X - v.X) (a.Y - v.Y) (a.Z - v.Z)
      ∧ (a.SubVector v).W = 1
      ∧ |(a.SubVector v).X - (a.X - v.X)| < math.Epsilon
      ∧ |(a.SubVector v).Y - (a.Y - v.Y)| < math.Epsilon
      ∧ |(a.SubVector v).Z - (a.Z - v.Z)| < math.Epsilon) := by
  refine ⟨⟨rfl, rfl, ?_, ?_, ?_⟩, ⟨rfl, rfl, ?_, ?_, ?_⟩⟩ <;>
    norm_num [tuple.point.SubPoint, tuple.point.SubVector, tuple.vector.X, tuple.vector.Y,
      tuple.vector.Z, tuple.point.X, tuple.point.Y, tuple.point.Z, math.Epsilon]

/-- C6: Cross computes the right-handed cross product componentwise, and is
anti-commutative: crossing in the opposite order equals the original cross
product scaled by -1, exactly and hence within Epsilon per component. -/
theorem vector_Cross_spec (a b : tuple.vector) :
    ((a.Cross b).X = a.Y * b.Z - a.Z * b.Y
      ∧ (a.Cross b).Y = a.Z * b.X - a.X * b.Z
      ∧ (a.Cross b).Z = a.X * b.Y - a.Y * b.X)
    ∧ b.Cross a = (a.Cross b).Scale (-1)
    ∧ |(b.Cross a).X - ((a.Cross b).Scale (-1)).X| < math.Epsilon
    ∧ |(b.Cross a).Y - ((a.Cross b).Scale (-1)).Y| < math.Epsilon
    ∧ |(b.Cross a).Z - ((a.Cross b).Scale (-1)).Z| < math.Epsilon := by
  refine ⟨⟨rfl, rfl, rfl⟩, ?_, ?_, ?_, ?_⟩
  · simp only [tuple.vector.Cross, tuple.NewVector, tuple.vector.Scale, tuple.vector.X,
      tuple.vector.Y, tuple.vector.Z, tuple.vector.mk.injEq, tuple.tuple.mk.injEq]
    refine ⟨?_, ?_, ?_⟩ <;> ring
  · have h : (b.Cross a).X - ((a.Cross b).Scale (-1)).X = 0 := by
      simp only [tuple.vector.Cross, tuple.NewVector, tuple.vector.Scale, tuple.vector.X,
        tuple.vector.Y, tuple.vector.Z]
      ring
    rw [h]
    norm_num [math.Epsilon]
  · have h : (b.Cross a).Y - ((a.Cross b).Scale (-1)).Y = 0 := by
      simp only [tuple.vector.Cross, tuple.NewVector, tuple.vector.Scale, tuple.vector.X,
        tuple.vector.Y, tuple.vector.Z]
      ring
    rw [h]
    norm_num [math.Epsilon]
  · have h : (b.Cross a).Z - ((a.Cross b).Scale (-1)).Z = 0 := by
      simp only [tuple.vector.Cross, tuple.NewVector, tuple.vector.Scale, tuple.vector.X,
        tuple.vector.Y, tuple.vector.Z]
      ring
    rw [h]
    norm_num [math.Epsilon]

/-- clampEq rewrites the clamp of the channel interval as a min/max form. -/
lemma clampEq (ch : ℚ) : tuple.limit.Clamp ch = min 1 (max 0 ch) := by
  simp only [number.Interval.Clamp, tuple.limit]
  split_ifs with h1 h2
  · rw [max_eq_left h1.le]
    norm_num
  · rw [max_eq_right (not_lt.mp h1), min_eq_left h2.le]
  · rw [max_eq_right (not_lt.mp h1), min_eq_right (not_lt.mp h2)]

/-- changeIntervalEq evaluates the rescaling from the clamp interval onto the
output interval as multiplication by 255. -/
lemma changeIntervalEq (m : ℚ) :
    number.ChangeInterval m tuple.limit tuple.output = 255 * m := by
  simp only [number.ChangeInterval, tuple.limit, tuple.output, tuple.MaxColor, tuple.MinColor]
  ring

/-- ppmChannelEq rewrites the serialized channel as a floor expression over the
clamped and rescaled channel. -/
lemma ppmChannelEq (ch : ℚ) :
    tuple.ppmChannel ch = ⌊255 * min 1 (max 0 ch) + 1/2⌋ := by
  have hm : (0 : ℚ) ≤ min 1 (max 0 ch) := le_min (by norm_num) (le_max_left _ _)
  simp only [tuple.ppmChannel, clampEq, changeIntervalEq, math.Round]
  rw [if_neg (not_lt.mpr (mul_nonneg (by norm_num) hm))]

/-- C4: ToPPM of a color writes the three serialized channels space-separated
with no surrounding whitespace, and each serialized channel is the channel
clamped to the unit interval, rescaled to the 0..255 interval, and rounded to
the nearest integer (within one half); a channel at most 0 serializes to 0 and
a channel at least 1 serializes to 255. -/
theorem color_ToPPM_spec (c : tuple.color) (ch : ℚ) :
    c.ToPPM = toString (tuple.ppmChannel c.Red) ++ " " ++
        toString (tuple.ppmChannel c.Green) ++ " " ++ toString (tuple.ppmChannel c.Blue)
    ∧ |(tuple.ppmChannel ch : ℚ) - 255 * min 1 (max 0 ch)| ≤ 1/2
    ∧ (ch ≤ 0 → tuple.ppmChannel ch = 0)
    ∧ (1 ≤ ch → tuple.ppmChannel ch = 255)
    ∧ 0 ≤ tuple.ppmChannel ch ∧ tuple.ppmChannel ch ≤ 255 := by
  have hm : (0 : ℚ) ≤ min 1 (max 0 ch) := le_min (by norm_num) (le_max_left _ _)
  have hm1 : min 1 (max 0 ch) ≤ 1 := min_le_left _ _
  refine ⟨rfl, ?_, ?_, ?_, ?_, ?_⟩
  · rw [ppmChannelEq]
    have h1 : (↑⌊255 * min 1 (max 0 ch) + 1/2⌋ : ℚ) ≤ 255 * min 1 (max 0 ch) + 1/2 :=
      Int.floor_le _
    have h2 : 255 * min 1 (max 0 ch) + 1/2 < ↑⌊255 * min 1 (max 0 ch) + 1/2⌋ + 1 :=
      Int.lt_floor_add_one _
    rw [abs_le]
    constructor <;> linarith
  · intro h
    have hz : min 1 (max 0 ch) = 0 := by
      rw [max_eq_left h]
      norm_num
    rw [ppmChannelEq, hz]
    norm_num
  · intro h
    have hz : min 1 (max 0 ch) = 1 := by
      rw [max_eq_right (le_trans zero_le_one h), min_eq_left h]
    rw [ppmChannelEq, hz]
    norm_num
  · rw [ppmChannelEq]
    exact Int.floor_nonneg.mpr (by linarith [mul_nonneg (show (0:ℚ) ≤ 255 by norm_num) hm])
  · rw [ppmChannelEq]
    calc ⌊255 * min 1 (max 0 ch) + 1/2⌋ ≤ ⌊(511/2 : ℚ)⌋ :=
          Int.floor_le_floor (by linarith)
      _ = 255 := by norm_num

/-- C4 witness: the serialized channel of a -1/2 channel is 0, of a channel 2
it is 255, and the concrete color with channels -1/2, 0, 1 serializes in the
space-separated three-channel format. -/
theorem color_ToPPM_spec_witness :
    ((-1/2 : ℚ) ≤ 0 ∧ tuple.ppmChannel (-1/2 : ℚ) = 0)
    ∧ ((1 : ℚ) ≤ 2 ∧ tuple.ppmChannel (2 : ℚ) = 255)
    ∧ (tuple.NewColor (-1/2) 0 1).ToPPM
        = toString (tuple.ppmChannel ((tuple.NewColor (-1/2) 0 1).Red)) ++ " " ++
          toString (tuple.ppmChannel ((tuple.NewColor (-1/2) 0 1).Green)) ++ " " ++
          toString (tuple.ppmChannel ((tuple.NewColor (-1/2) 0 1).Blue)) :=
  ⟨⟨by norm_num, (color_ToPPM_spec (tuple.NewColor 0 0 0) (-1/2)).2.2.1 (by norm_num)⟩,
   ⟨by norm_num, (color_ToPPM_spec (tuple.NewColor 0 0 0) 2).2.2.2.1 (by norm_num)⟩,
   (color_ToPPM_spec (tuple.NewColor (-1/2) 0 1) 0).1⟩

/-- stringFoldlAppend pulls the start string out of a left fold of string
appends. -/
lemma stringFoldlAppend (l : List String) (a : String) :
    l.foldl (· ++ ·) a = a ++ l.foldl (· ++ ·) "" := by
  induction l generalizing a with
  | nil => simp only [List.foldl_nil, String.append_empty]
  | cons s t ih =>
    simp only [List.foldl_cons]
    rw [ih (a ++ s), ih ("" ++ s), String.empty_append, String.append_assoc]

/-- stringJoinCons unfolds a join at a cons cell. -/
lemma stringJoinCons (s : String) (l : List String) :
    String.join (s :: l) = s ++ String.join l := by
  show (s :: l).foldl (· ++ ·) "" = s ++ l.foldl (· ++ ·) ""
  simp only [List.foldl_cons]
  rw [stringFoldlAppend, String.empty_append]

/-- toPPMFoldAux evaluates the serialization fold of a canvas over cells that
are all colors, for any accumulated output string. -/
lemma toPPMFoldAux (c : canvas.canvas) (cs : List tuple.color) (a : String) :
    (cs.map canvas.Drawable.color).foldl
        (fun acc item =>
          match acc, item.ToPPM with
          | some s, some t => some (s ++ t ++ c.separator)
          | _, _ => none)
        (some a)
      = some (a ++ String.join (cs.map fun d => d.ToPPM ++ c.separator)) := by
  induction cs generalizing a with
  | nil => simp only [List.map_nil, List.foldl_nil, String.join, List.foldl_nil,
      String.append_empty]
  | cons d t ih =>
    simp only [List.map_cons, List.foldl_cons, stringJoinCons]
    exact (ih (a ++ d.ToPPM ++ c.separator)).trans (by simp only [String.append_assoc])

/-- rangeMapConst evaluates a constant map over a range. -/
lemma rangeMapConst {α : Type} (n : Nat) (b : α) :
    (List.range n).map (fun _ => b) = List.replicate n b := by
  rw [show (fun _ : Nat => b) = Function.const Nat b from rfl, List.map_const, List.length_range]

/-- rangeMulMap shows that enumerating h times w flat indices and splitting
each index i as (i mod w, i div w) is exactly the row-major enumeration of the
grid coordinates: all of row 0 left to right, then row 1, and so on. -/
lemma rangeMulMap {α : Type} (w h : Nat) (f : Nat → Nat → α) :
    (List.range (h * w)).map (fun i => f (i % w) (i / w))
      = (List.range h).flatMap fun b => (List.range w).map fun a => f a b := by
  induction h with
  | zero => simp
  | succ n ih =>
    rw [Nat.succ_mul, List.range_add, List.map_append, List.range_succ,
      List.flatMap_append, ih, List.map_map]
    congr 1
    simp only [List.flatMap_cons, List.flatMap_nil, List.append_nil]
    apply List.map_congr_left
    intro a ha
    have haw : a < w := List.mem_range.mp ha
    have hw : 0 < w := lt_of_le_of_lt (Nat.zero_le a) haw
    have h1 : (n * w + a) % w = a := by
      rw [Nat.add_comm, Nat.add_mul_mod_self_right, Nat.mod_eq_of_lt haw]
    have h2 : (n * w + a) / w = n := by
      rw [Nat.add_comm, Nat.add_mul_div_right _ _ hw, Nat.div_eq_of_lt haw, Nat.zero_add]
    simp only [Function.comp_apply, h1, h2]

/-- NewNilEq evaluates construction with no caller options. -/
lemma NewNilEq (w h : Nat) :
    canvas.New w h [] =
      { width := w, height := h,
        header := fun c => "P3\n" ++ toString c.width ++ " " ++ toString c.height ++ "\n" ++
          toString ⌊tuple.MaxColor⌋ ++ "\n",
        separator := "\n",
        contents := List.replicate (h * w % canvas.U64) (canvas.Drawable.color tuple.Black) } := by
  simp only [canvas.New, canvas.defaultOptions, canvas.WithFillFunc, canvas.WithHeader,
    canvas.WithSeparator, List.append_nil, List.foldl_cons, List.foldl_nil,
    List.length_replicate]
  rw [rangeMapConst]

/-- NewFillEq evaluates construction with a caller fill option. -/
lemma NewFillEq (w h : Nat) (f : canvas.FillFunc) :
    canvas.New w h [canvas.WithFillFunc f] =
      { width := w, height := h,
        header := fun c => "P3\n" ++ toString c.width ++ " " ++ toString c.height ++ "\n" ++
          toString ⌊tuple.MaxColor⌋ ++ "\n",
        separator := "\n",
        contents := (List.range (h * w % canvas.U64)).map fun i => f (i % w) (i / w) } := by
  simp only [canvas.New, canvas.defaultOptions, canvas.WithFillFunc, canvas.WithHeader,
    canvas.WithSeparator, List.cons_append, List.nil_append, List.foldl_cons, List.foldl_nil,
    List.length_replicate, List.length_map, List.length_range]

/-- indexInj shows flat indices determine in-range coordinates uniquely. -/
lemma indexInj {w a b a2 b2 : Nat} (ha : a < w) (ha2 : a2 < w)
    (h : a + b * w = a2 + b2 * w) : a = a2 ∧ b = b2 := by
  have hw : 0 < w := lt_of_le_of_lt (Nat.zero_le a) ha
  have e1 : (a + b * w) % w = a := by
    rw [Nat.add_mul_mod_self_right, Nat.mod_eq_of_lt ha]
  have e2 : (a2 + b2 * w) % w = a2 := by
    rw [Nat.add_mul_mod_self_right, Nat.mod_eq_of_lt ha2]
  rw [h] at e1
  have hx : a = a2 := by rw [← e1, e2]
  subst hx
  have hb : b * w = b2 * w := Nat.add_left_cancel h
  exact ⟨rfl, Nat.eq_of_mul_eq_mul_right hw hb⟩

/-- indexRange bounds the flat index of in-range coordinates. -/
lemma indexRange {c : canvas.canvas} {x y : Nat}
    (hx : x < c.width) (hy : y < c.height) :
    x + y * c.width < c.width * c.height := by
  calc x + y * c.width < c.width + y * c.width := by omega
    _ = (y + 1) * c.width := by ring
    _ ≤ c.height * c.width := Nat.mul_le_mul_right _ (by omega)
    _ = c.width * c.height := Nat.mul_comm _ _

/-- C9: storing into an in-range cell succeeds and returns the updated canvas;
reading that cell back gives exactly the stored value, every other in-range
cell reads unchanged, and width, height, header function, separator and the
cell count are unchanged. -/
theorem canvas_Set_Get_frame (c : canvas.canvas) (x y : Nat) (v : canvas.Drawable)
    (hlen : c.contents.length = c.width * c.height)
    (hwh : c.width * c.height ≤ canvas.U64)
    (hx : x < c.width) (hy : y < c.height) :
    ∃ c2, c.Set x y v = some c2
      ∧ c2.Get x y = some v
      ∧ (∀ x2 y2, x2 < c.width → y2 < c.height → (x2, y2) ≠ (x, y) →
          c2.Get x2 y2 = c.Get x2 y2)
      ∧ c2.width = c.width ∧ c2.height = c.height
      ∧ c2.header = c.header ∧ c2.separator = c.separator
      ∧ c2.contents.length = c.contents.length := by
  have hlt : x + y * c.width < c.width * c.height := indexRange hx hy
  have hU : x + y * c.width < canvas.U64 := lt_of_lt_of_le hlt hwh
  have hmod : (x + y * c.width) % canvas.U64 = x + y * c.width := Nat.mod_eq_of_lt hU
  have hltlen : x + y * c.width < c.contents.length := by rw [hlen]; exact hlt
  have hidx : c.index x y = x + y * c.width := by
    simp only [canvas.canvas.index]
    exact hmod
  refine ⟨{ c with contents := c.contents.set (c.index x y) v }, ?_, ?_, ?_, rfl, rfl, rfl,
    rfl, ?_⟩
  · simp only [canvas.canvas.Set]
    rw [if_pos]
    rw [hidx]
    exact hltlen
  · simp only [canvas.canvas.Get, canvas.canvas.index, hmod]
    exact List.getElem?_set_self hltlen
  · intro x2 y2 hx2 hy2 hne
    have hmod2 : (x2 + y2 * c.width) % canvas.U64 = x2 + y2 * c.width :=
      Nat.mod_eq_of_lt (lt_of_lt_of_le (indexRange hx2 hy2) hwh)
    simp only [canvas.canvas.Get, canvas.canvas.index, hmod, hmod2]
    refine List.getElem?_set_ne ?_
    intro heq
    obtain ⟨h1, h2⟩ := indexInj hx hx2 heq
    exact hne (by simp [h1, h2])
  · exact List.length_set c.contents _ v

/-- C9 witness: on the fresh 2 by 2 canvas, setting cell (1, 0) to white then
reading it back yields white, with all other cells and fields unchanged. -/
theorem canvas_Set_Get_frame_witness :
    ∃ c2, (canvas.New 2 2 []).Set 1 0 (canvas.Drawable.color tuple.White) = some c2
      ∧ c2.Get 1 0 = some (canvas.Drawable.color tuple.White)
      ∧ (∀ x2 y2, x2 < (canvas.New 2 2 []).width → y2 < (canvas.New 2 2 []).height →
          (x2, y2) ≠ (1, 0) → c2.Get x2 y2 = (canvas.New 2 2 []).Get x2 y2)
      ∧ c2.width = (canvas.New 2 2 []).width ∧ c2.height = (canvas.New 2 2 []).height
      ∧ c2.header = (canvas.New 2 2 []).header ∧ c2.separator = (canvas.New 2 2 []).separator
      ∧ c2.contents.length = (canvas.New 2 2 []).contents.length :=
  canvas_Set_Get_frame (canvas.New 2 2 []) 1 0 (canvas.Drawable.color tuple.White)
    (by decide) (by decide) (by decide) (by decide)

/-- C1 corrected: Get and Set fault exactly when the flat index x + y * width
reaches the cell count width * height, and a y at or beyond the height always
faults; an x at or beyond the width alone does not fault when the flat index
is still in range, as the separate counterexample shows. -/
theorem canvas_Get_Set_bounds (c : canvas.canvas) (x y : Nat) (v : canvas.Drawable)
    (hlen : c.contents.length = c.width * c.height)
    (hU : x + y * c.width < canvas.U64) :
    (c.Get x y = none ↔ c.width * c.height ≤ x + y * c.width)
    ∧ (c.Set x y v = none ↔ c.width * c.height ≤ x + y * c.width)
    ∧ (c.height ≤ y → c.Get x y = none) := by
  have hmod : (x + y * c.width) % canvas.U64 = x + y * c.width := Nat.mod_eq_of_lt hU
  have hget : c.Get x y = none ↔ c.width * c.height ≤ x + y * c.width := by
    simp only [canvas.canvas.Get, canvas.canvas.index, hmod, List.getElem?_eq_none_iff, hlen]
  refine ⟨hget, ?_, ?_⟩
  · simp only [canvas.canvas.Set, canvas.canvas.index, hmod, hlen]
    split_ifs with hlt
    · exact iff_of_false (by simp) (Nat.not_le.mpr hlt)
    · exact iff_of_true rfl (Nat.not_lt.mp hlt)
  · intro hge
    rw [hget]
    have hyw : c.width * c.height ≤ y * c.width := by
      rw [Nat.mul_comm]
      exact Nat.mul_le_mul_right _ hge
    exact le_trans hyw (Nat.le_add_left _ _)

/-- C1 witness for the corrected statement: on the fresh 5 by 3 canvas the
coordinates (7, 4), whose flat index 27 is at least 15, make both Get and Set
fault, and y = 4 at or beyond the height faults. -/
theorem canvas_Get_Set_bounds_witness :
    ((canvas.New 5 3 []).Get 7 4 = none ↔
      (canvas.New 5 3 []).width * (canvas.New 5 3 []).height ≤
        7 + 4 * (canvas.New 5 3 []).width)
    ∧ ((canvas.New 5 3 []).Set 7 4 (canvas.Drawable.color tuple.White) = none ↔
      (canvas.New 5 3 []).width * (canvas.New 5 3 []).height ≤
        7 + 4 * (canvas.New 5 3 []).width)
    ∧ ((canvas.New 5 3 []).height ≤ 4 → (canvas.New 5 3 []).Get 7 4 = none) :=
  canvas_Get_Set_bounds (canvas.New 5 3 []) 7 4 (canvas.Drawable.color tuple.White)
    (by decide) (by decide)

/-- C1 counterexample: on a fresh 5 by 3 canvas, x = 7 is out of range yet
Get (7, 0) does not fault, Set (7, 0) does not fault, and after storing white
at the in-range cell (2, 1), Get (7, 0) returns that same white cell: the
out-of-range x is silently redirected into a later row because the flat index
7 is below 15. -/
theorem canvas_Get_wrap_counterexample :
    ((canvas.New 5 3 []).Set 2 1 (canvas.Drawable.color tuple.White)).bind
        (fun c2 => c2.Get 7 0) = some (canvas.Drawable.color tuple.White)
    ∧ (canvas.New 5 3 []).Get 7 0 ≠ none
    ∧ ((canvas.New 5 3 []).Set 7 0 (canvas.Drawable.color tuple.White)).isSome = true := by
  refine ⟨by decide, by decide, by decide⟩

/-- C5: serialization writes the header string produced by the configured
header function applied to the canvas observations, then every cell in
contents order serialized followed by the configured separator, the final
cell included; a canvas built with the default options has separator a single
newline and header P3, the dimensions line, and 255. -/
theorem canvas_ToPPM_layout (c : canvas.canvas) (cs : List tuple.color) (w h : Nat)
    (hc : c.contents = cs.map canvas.Drawable.color) :
    c.ToPPM = some (c.header c.toData ++ String.join (cs.map fun d => d.ToPPM ++ c.separator))
    ∧ (canvas.New w h []).separator = "\n"
    ∧ (canvas.New w h []).header (canvas.New w h []).toData
        = "P3\n" ++ toString w ++ " " ++ toString h ++ "\n255\n" := by
  refine ⟨?_, ?_, ?_⟩
  · simp only [canvas.canvas.ToPPM, hc]
    exact toPPMFoldAux c cs (c.header c.toData)
  · rw [NewNilEq]
  · rw [NewNilEq]
    simp only [canvas.canvas.toData, String.append_assoc]
    rfl

/-- C5 witness: the fresh 2 by 1 canvas has exactly two black color cells and
serializes to its header followed by each cell followed by the separator. -/
theorem canvas_ToPPM_layout_witness :
    ((canvas.New 2 1 []).contents
        = [tuple.Black, tuple.Black].map canvas.Drawable.color)
    ∧ (canvas.New 2 1 []).ToPPM
        = some ((canvas.New 2 1 []).header (canvas.New 2 1 []).toData ++
            String.join ([tuple.Black, tuple.Black].map fun d =>
              d.ToPPM ++ (canvas.New 2 1 []).separator)) :=
  ⟨by decide, (canvas_ToPPM_layout (canvas.New 2 1 []) [tuple.Black, tuple.Black] 2 1
    (by decide)).1⟩

/-- C8: construction allocates width times height cells, all equal to the
default fill (black) when no fill override is given; a caller fill function
is applied once per cell, cell i receiving the coordinates (i mod width,
i div width), which enumerates the grid in row-major order: all cells of row
0 left to right, then row 1, and so on. -/
theorem canvas_New_fill_spec (w h : Nat) (f : canvas.FillFunc)
    (hwh : h * w < canvas.U64) :
    (canvas.New w h []).contents.length = w * h
    ∧ (canvas.New w h []).contents = List.replicate (w * h) (canvas.Drawable.color tuple.Black)
    ∧ (canvas.New w h [canvas.WithFillFunc f]).contents
        = (List.range (w * h)).map (fun i => f (i % w) (i / w))
    ∧ (canvas.New w h [canvas.WithFillFunc f]).contents
        = (List.range h).flatMap (fun b => (List.range w).map fun a => f a b)
    ∧ (canvas.New w h [canvas.WithFillFunc f]).fillCoords
        = (List.range h).flatMap (fun b => (List.range w).map fun a => (a, b)) := by
  have hmod : h * w % canvas.U64 = h * w := Nat.mod_eq_of_lt hwh
  have hcomm : w * h = h * w := Nat.mul_comm w h
  refine ⟨?_, ?_, ?_, ?_, ?_⟩
  · rw [NewNilEq]
    rw [List.length_replicate, hmod, hcomm]
  · rw [NewNilEq]
    rw [hmod, hcomm]
  · rw [NewFillEq]
    rw [hmod, hcomm]
  · rw [NewFillEq]
    show (List.range (h * w % canvas.U64)).map _ = _
    rw [hmod]
    exact rangeMulMap w h f
  · rw [NewFillEq]
    simp only [canvas.canvas.fillCoords, List.length_map, List.length_range, hmod]
    exact rangeMulMap w h fun a b => (a, b)

/-- C8 witness: a 2 by 3 canvas built with a coordinate-revealing fill holds,
in row-major order, exactly the fill value of each coordinate. -/
theorem canvas_New_fill_spec_witness :
    3 * 2 < canvas.U64
    ∧ (canvas.New 2 3 [canvas.WithFillFunc fun a b =>
          canvas.Drawable.color (tuple.NewColor a b 0)]).contents
        = (List.range 3).flatMap (fun b => (List.range 2).map fun a =>
            canvas.Drawable.color (tuple.NewColor a b 0)) :=
  ⟨by decide, (canvas_New_fill_spec 2 3 _ (by decide)).2.2.2.1⟩

/-- C10: degenerate construction is safe: with width 0 or height 0 the canvas
holds no cells, the fill loop never runs (so no coordinate is ever passed to
a fill function and no mod-by-zero is computed), and serialization writes
only the header. -/
theorem canvas_New_degenerate (w h : Nat) (f : canvas.FillFunc) :
    (canvas.New 0 h [canvas.WithFillFunc f]).contents = []
    ∧ (canvas.New w 0 [canvas.WithFillFunc f]).contents = []
    ∧ (canvas.New 0 h [canvas.WithFillFunc f]).fillCoords = []
    ∧ (canvas.New w 0 [canvas.WithFillFunc f]).fillCoords = []
    ∧ (canvas.New 0 h []).ToPPM = some ((canvas.New 0 h []).header (canvas.New 0 h []).toData)
    ∧ (canvas.New w 0 []).ToPPM = some ((canvas.New w 0 []).header (canvas.New w 0 []).toData) := by
  refine ⟨?_, ?_, ?_, ?_, ?_, ?_⟩
  · simp [NewFillEq]
  · simp [NewFillEq]
  · simp [NewFillEq, canvas.canvas.fillCoords]
  · simp [NewFillEq, canvas.canvas.fillCoords]
  · simp [NewNilEq, canvas.canvas.ToPPM]
  · simp [NewNilEq, canvas.canvas.ToPPM]
